import Mathlib

/-!
Verification of the autoregressive rollout engine and the lead-time
windowing scheduler of `graphneuralpdesolver`.

The state of the PDE solver (one entry of the trajectory along the time
axis, i.e. an array of shape `[batch, 1, nodes, channels]`) is modelled by
an abstract type `σ`.  The learned transition operator
`operator.apply(variables, specs, u_inp, ndt)` has its `variables` and
`specs` arguments fixed throughout a rollout, so it is modelled as a
function `op : σ → ℕ → σ` taking the current state and the integer time
delta `ndt`.  The time axis of a rank-4 tensor is modelled as a `List σ`.
-/

namespace GraphNeuralPDESolver

variable {σ : Type}

/-- Inner scan of `AutoregressivePredictor.__call__`
(`autoregressive.py`, lines 23-32): `scan_fn_direct` keeps the carry
`u_inp` unchanged and outputs `apply(u_inp, ndt)` for each
`ndt ∈ time_deltas = [1, ..., K]`; after `squeeze`/`swapaxes` the stacked
outputs are, along the time axis, the list
`[apply(u, 1), ..., apply(u, K)]`. -/
def directOutputs (op : σ → ℕ → σ) (K : ℕ) (u : σ) : List σ :=
  (List.range K).map (fun i => op u (i + 1))

/-- Outer scan of `AutoregressivePredictor.__call__`
(`autoregressive.py`, lines 29-38): `scan_fn_autoregressive` produces the
block `u_out = directOutputs op K u` at each jump and carries
`u_next = u_out[:, -1:]`, the last entry of the block, into the next jump.
The stacked per-jump blocks, after `swapaxes`/`reshape`
(lines 39-41), form one flat list along the time axis, realised here by
`++`.  Returns (final carry, flat rollout).  The source requires `K ≥ 1`
(`jax.lax.scan` demands a shape-invariant carry, which fails for an empty
block); the `getLastD` default is never reached in that regime. -/
def scanAutoregressive (op : σ → ℕ → σ) (K : ℕ) : ℕ → σ → σ × List σ
  | 0, u => (u, [])
  | n + 1, u =>
    let block := directOutputs op K u
    let rest := scanAutoregressive op K n (block.getLastD u)
    (rest.1, block ++ rest.2)

/-- `AutoregressivePredictor.__call__` (`autoregressive.py`, lines 16-44):
runs the autoregressive scan for `num_jumps` jumps, then
(line 42) prepends the supplied input and drops the last predicted entry:
`rollout = concatenate([u_inp, rollout[:, :-1]], axis=1)`.
Returns `(rollout, u_next)`. -/
def call (op : σ → ℕ → σ) (K : ℕ) (u_inp : σ) (num_jumps : ℕ) :
    List σ × σ :=
  let s := scanAutoregressive op K num_jumps u_inp
  (u_inp :: s.2.dropLast, s.1)

/-- `AutoregressivePredictor.jump` (`autoregressive.py`, lines 46-63):
a scan of length `num_jumps` whose step applies the operator once with
`ndt = num_steps_direct = K` and feeds the output back as the carry;
only the final carry is returned. -/
def jump (op : σ → ℕ → σ) (K : ℕ) : σ → ℕ → σ
  | u, 0 => u
  | u, n + 1 => jump op K (op u K) n

/-- `get_noisy_input` (`train.py`, lines 170-183): applies the skip
predictor (the `jump` path) to the lagged input for `num_steps_autoreg`
autoregressive jumps of depth `K = direct_steps` each, with gradient
tracking disabled; gradient tracking does not affect the forward value. -/
def get_noisy_input (op : σ → ℕ → σ) (K : ℕ) (u_lag : σ)
    (num_steps_autoreg : ℕ) : σ :=
  jump op K u_lag num_steps_autoreg

/-- `train` (`train.py`, line 125):
`lead_times = jnp.arange(unroll_offset, num_times - direct_steps)`,
the half-open integer range from `offset` (inclusive) to
`num_times - K` (exclusive); empty when the bounds cross, matching
`jnp.arange`. -/
def lead_times (num_times K offset : ℕ) : List ℕ :=
  List.range' offset ((num_times - K) - offset)

/-- `train` (`train.py`, line 127):
`num_lead_times = num_times - unroll_offset - direct_steps`. -/
def num_lead_times (num_times K offset : ℕ) : ℕ :=
  num_times - offset - K

/-- `get_loss_and_grads` (`train.py`, line 194):
`grads_steps = FLAGS.unroll_steps - noise_steps`. -/
def grads_steps (unroll_steps noise_steps : ℕ) : ℕ :=
  unroll_steps - noise_steps

/-- The sequence of `noise_steps` values actually used across the training
steps of a run.  `train_one_batch` (`train.py`, lines 205-208) is wrapped
in `@jax.jit`, and `np.random.choice` (line 193) is a NumPy call executed
only while JAX traces the function on its first invocation; every later
invocation reuses the compiled computation, in which the traced value is a
baked-in constant.  So all training steps use the single value drawn at
trace time. -/
def noise_steps_used_jit (trace_draw num_steps : ℕ) : List ℕ :=
  List.replicate num_steps trace_draw

/-- Modelled from the spec: the per-step noise split the spec describes,
in which `noise_steps` is freshly drawn at every training step, so step
`i` uses the `i`-th value of the draw sequence. -/
def noise_steps_used_spec (draws : ℕ → ℕ) (num_steps : ℕ) : List ℕ :=
  (List.range num_steps).map draws

/-! ### Basic lemmas about the embedding -/

theorem directOutputs_length (op : σ → ℕ → σ) (K : ℕ) (u : σ) :
    (directOutputs op K u).length = K := by
  simp [directOutputs]

theorem directOutputs_getLastD (op : σ → ℕ → σ) {K : ℕ} (hK : 1 ≤ K)
    (u d : σ) : (directOutputs op K u).getLastD d = op u K := by
  obtain ⟨m, rfl⟩ : ∃ m, K = m + 1 := ⟨K - 1, by omega⟩
  simp [directOutputs, List.range_succ, List.getLastD_concat]

theorem scanAutoregressive_snd_length (op : σ → ℕ → σ) (K : ℕ) :
    ∀ (n : ℕ) (u : σ), (scanAutoregressive op K n u).2.length = n * K
  | 0, _ => by simp [scanAutoregressive]
  | n + 1, u => by
    simp [scanAutoregressive, scanAutoregressive_snd_length op K n,
      directOutputs_length]
    ring

theorem scanAutoregressive_fst_eq_jump (op : σ → ℕ → σ) {K : ℕ}
    (hK : 1 ≤ K) :
    ∀ (n : ℕ) (u : σ), (scanAutoregressive op K n u).1 = jump op K u n
  | 0, _ => rfl
  | n + 1, u => by
    simp only [scanAutoregressive, jump, directOutputs_getLastD op hK]
    exact scanAutoregressive_fst_eq_jump op hK n (op u K)

theorem jump_add (op : σ → ℕ → σ) (K : ℕ) :
    ∀ (a b : ℕ) (u : σ), jump op K u (a + b) = jump op K (jump op K u a) b
  | 0, b, u => by rw [Nat.zero_add]; rfl
  | a + 1, b, u => by
    have h : a + 1 + b = a + b + 1 := by omega
    rw [h]
    exact jump_add op K a b (op u K)

/-! ### Claim theorems -/

/-- C1: for every operator (parameter set and specs fixed inside `op`),
every `K ≥ 1` and `num_jumps ≥ 1`, the cheap path
`AutoregressivePredictor.jump` returns the same state as the terminal
state `u_next` returned by the full path
`AutoregressivePredictor.__call__`. -/
theorem claim_C1_jump_eq_call_final (op : σ → ℕ → σ) {K n : ℕ}
    (hK : 1 ≤ K) (hn : 1 ≤ n) (u : σ) :
    jump op K u n = (call op K u n).2 :=
  (scanAutoregressive_fst_eq_jump op hK n u).symm

/-- Witness for C1 at `K = 2`, `num_jumps = 2`, the operator
`fun u d => u + d` on `ℕ` and input `0`. -/
theorem claim_C1_witness :
    1 ≤ 2 ∧ 1 ≤ 2 ∧
      jump (fun (u d : ℕ) => u + d) 2 0 2 =
        (call (fun (u d : ℕ) => u + d) 2 0 2).2 :=
  ⟨by decide, by decide,
    @claim_C1_jump_eq_call_final ℕ (fun u d => u + d) 2 2
      (by decide) (by decide) 0⟩

/-- C2: for every `num_jumps ≥ 1` and `K ≥ 1`, the rollout history
returned by `AutoregressivePredictor.__call__` has exactly
`num_jumps * K` entries along the time axis. -/
theorem claim_C2_history_length (op : σ → ℕ → σ) {K n : ℕ}
    (hn : 1 ≤ n) (hK : 1 ≤ K) (u : σ) :
    (call op K u n).1.length = n * K := by
  have hlen := scanAutoregressive_snd_length op K n u
  have hpos : 0 < n * K := Nat.mul_pos hn hK
  show (u :: (scanAutoregressive op K n u).2.dropLast).length = n * K
  simp only [List.length_cons, List.length_dropLast, hlen]
  omega

/-- Witness for C2 at `K = 3`, `num_jumps = 2`. -/
theorem claim_C2_witness :
    1 ≤ 2 ∧ 1 ≤ 3 ∧
      (call (fun (u d : ℕ) => u + d) 3 0 2).1.length = 2 * 3 :=
  ⟨by decide, by decide,
    @claim_C2_history_length ℕ (fun u d => u + d) 3 2
      (by decide) (by decide) 0⟩

/-- C3: for every `num_jumps ≥ 1`, the first time entry of the rollout
history returned by `AutoregressivePredictor.__call__` is exactly the
supplied input state `u_inp`. -/
theorem claim_C3_history_head (op : σ → ℕ → σ) (K : ℕ) {n : ℕ}
    (hn : 1 ≤ n) (u : σ) :
    (call op K u n).1.head? = some u := rfl

/-- Witness for C3 at `K = 2`, `num_jumps = 1`. -/
theorem claim_C3_witness :
    1 ≤ 1 ∧
      (call (fun (u d : ℕ) => u + d) 2 5 1).1.head? = some 5 :=
  ⟨by decide,
    @claim_C3_history_head ℕ (fun u d => u + d) 2 1 (by decide) 5⟩

/-- C4 counterexample: the rollout tensor *returned* by
`AutoregressivePredictor.__call__` starts with the supplied input (line 42
prepends `u_inp` and drops the last predicted entry), so its first
`K`-block is NOT the first direct-step output block.  Concretely, with the
operator `fun u d => u + d` on `ℕ`, `K = 1`, `num_jumps = 1`, input `0`:
the returned history is `[0]` while the first direct block is `[1]`. -/
theorem claim_C4_counterexample :
    ¬ ((call (fun (u d : ℕ) => u + d) 1 0 1).1.take 1 =
        directOutputs (fun (u d : ℕ) => u + d) 1 0) := by decide

/-- C4 amended: the invariant holds of the flat rollout assembled by
`__call__` *before* line 42 prepends `u_inp` and drops the final entry:
its first `K` entries are the first direct-step block computed from the
initial input, the remainder is the rollout continued from that block's
last state (`op u K`), and the returned history is `u_inp` followed by all
but the last entry of the flat rollout. -/
theorem claim_C4_amended_blocks (op : σ → ℕ → σ) {K n : ℕ}
    (hK : 1 ≤ K) (hn : 1 ≤ n) (u : σ) :
    (scanAutoregressive op K n u).2.take K = directOutputs op K u ∧
    (scanAutoregressive op K n u).2.drop K =
      (scanAutoregressive op K (n - 1) (op u K)).2 ∧
    (call op K u n).1 = u :: (scanAutoregressive op K n u).2.dropLast := by
  obtain ⟨m, rfl⟩ : ∃ m, n = m + 1 := ⟨n - 1, by omega⟩
  refine ⟨?_, ?_, rfl⟩
  · show ((directOutputs op K u) ++ _).take K = _
    exact List.take_left' (directOutputs_length op K u)
  · show ((directOutputs op K u) ++ _).drop K = _
    rw [List.drop_left' (directOutputs_length op K u),
      directOutputs_getLastD op hK]
    simp

/-- Witness for the amended C4 at `K = 1`, `num_jumps = 1`. -/
theorem claim_C4_amended_witness :
    1 ≤ 1 ∧ 1 ≤ 1 ∧
      ((scanAutoregressive (fun (u d : ℕ) => u + d) 1 1 0).2.take 1 =
          directOutputs (fun (u d : ℕ) => u + d) 1 0 ∧
        (scanAutoregressive (fun (u d : ℕ) => u + d) 1 1 0).2.drop 1 =
          (scanAutoregressive (fun (u d : ℕ) => u + d) 1 (1 - 1)
            ((fun (u d : ℕ) => u + d) 0 1)).2 ∧
        (call (fun (u d : ℕ) => u + d) 1 0 1).1 =
          0 :: (scanAutoregressive (fun (u d : ℕ) => u + d) 1 1 0).2.dropLast) :=
  ⟨by decide, by decide,
    @claim_C4_amended_blocks ℕ (fun u d => u + d) 1 1
      (by decide) (by decide) 0⟩

/-- C5 counterexample: `lead_times = jnp.arange(offset, num_times - K)`
is a half-open range.  For `num_times = 10`, `K = 2`, `offset = 0` the
code yields the 8 lead times `0, ..., 7`; the lead time `8` claimed by the
inclusive range `[offset, num_times - K]` is not among them, and there are
8 windows per sample, not 9. -/
theorem claim_C5_counterexample :
    8 ∉ lead_times 10 2 0 ∧ (lead_times 10 2 0).length = 8 := by decide

/-- C5 amended: the set of valid lead times is the half-open range
`[offset, num_times - K)`; for `num_times = 10`, `K = 2`, `offset = 0`
there are 8 lead times (0 through 7 inclusive) and hence 8 windows per
sample, in agreement with `num_lead_times` computed on line 127. -/
theorem claim_C5_amended_lead_time_range :
    (∀ num_times K offset t : ℕ,
      t ∈ lead_times num_times K offset ↔
        offset ≤ t ∧ t < num_times - K) ∧
    (lead_times 10 2 0).length = 8 ∧
    (∀ num_times K offset : ℕ,
      (lead_times num_times K offset).length =
        num_lead_times num_times K offset) := by
  refine ⟨?_, by decide, ?_⟩
  · intro nt K off t
    rw [lead_times, List.mem_range'_1]
    omega
  · intro nt K off
    rw [lead_times, num_lead_times, List.length_range']
    omega

/-- C6: `train_one_batch` (train.py line 205) is wrapped in `@jax.jit`,
so `np.random.choice` on line 193 executes only once, at trace time; the
same `noise_steps` value is then baked into the compiled update and
reused by every later training step.  The noise split therefore cannot
differ from one training step to the next, contradicting the claimed
fresh per-step draw: with trace-time draw `0` and the (possible) draw
sequence `fun i => i`, the executed splits are `[0, 0]` while the claimed
behaviour gives `[0, 1]`. -/
theorem claim_C6_jit_freezes_noise_steps :
    noise_steps_used_jit 0 2 ≠ noise_steps_used_spec (fun i => i) 2 ∧
    noise_steps_used_jit 0 2 = [0, 0] ∧
    noise_steps_used_spec (fun i => i) 2 = [0, 1] ∧
    grads_steps 1 0 = 1 ∧ grads_steps 1 1 = 0 := by decide

/-- C7: `get_noisy_input` with `num_steps_autoreg = 0` is a zero-length
`jax.lax.scan`, which returns its initial carry unchanged: the result is
`u_lag` itself, exactly. -/
theorem claim_C7_noisy_input_zero_steps (op : σ → ℕ → σ) (K : ℕ)
    (u_lag : σ) : get_noisy_input op K u_lag 0 = u_lag := rfl

/-- C8: compositionality of jumps: for `noise_steps1 < noise_steps2`, the
noisy input after `noise_steps2` jumps equals `jump` applied for the
remaining `noise_steps2 - noise_steps1` jumps to the noisy input after
`noise_steps1` jumps. -/
theorem claim_C8_noisy_input_compositional (op : σ → ℕ → σ) (K : ℕ)
    (u_lag : σ) {ns1 ns2 : ℕ} (h : ns1 < ns2) :
    get_noisy_input op K u_lag ns2 =
      jump op K (get_noisy_input op K u_lag ns1) (ns2 - ns1) := by
  show jump op K u_lag ns2 = jump op K (jump op K u_lag ns1) (ns2 - ns1)
  have hsplit : ns2 = ns1 + (ns2 - ns1) := by omega
  nth_rewrite 1 [hsplit]
  rw [jump_add]

/-- Witness for C8 at `noise_steps1 = 0`, `noise_steps2 = 2`, `K = 1`. -/
theorem claim_C8_witness :
    0 < 2 ∧
      get_noisy_input (fun (u d : ℕ) => u + d) 1 0 2 =
        jump (fun (u d : ℕ) => u + d) 1
          (get_noisy_input (fun (u d : ℕ) => u + d) 1 0 0) (2 - 0) :=
  ⟨by decide,
    @claim_C8_noisy_input_compositional ℕ (fun u d => u + d) 1 0 0 2
      (by decide)⟩

/-- C9: every training window stays inside the trajectory's time axis:
for every lead time `t` produced by line 125, the input slice index
`t - offset` is non-negative (trivially, with `offset ≤ t`) and in range,
and the output slice `[t+1, t+K]` ends strictly before `num_times`. -/
theorem claim_C9_windows_in_bounds {num_times K offset t : ℕ}
    (h : t ∈ lead_times num_times K offset) :
    offset ≤ t ∧ t - offset < num_times ∧ t + K < num_times := by
  rw [lead_times, List.mem_range'_1] at h
  omega

/-- Witness for C9 at `num_times = 10`, `K = 2`, `offset = 0`, `t = 0`. -/
theorem claim_C9_witness :
    0 ∈ lead_times 10 2 0 ∧ (0 ≤ 0 ∧ 0 - 0 < 10 ∧ 0 + 2 < 10) :=
  ⟨by decide, @claim_C9_windows_in_bounds 10 2 0 0 (by decide)⟩

/-- C10: at `num_jumps = 0`, `AutoregressivePredictor.__call__` returns a
history of time-length exactly 1 holding only the supplied `u_inp` (the
outer scan has length 0, so line 42 concatenates `u_inp` with an empty
slice), with terminal state equal to `u_inp`; and
`AutoregressivePredictor.jump` with `num_jumps = 0` returns `u_inp`
unchanged. -/
theorem claim_C10_zero_jumps (op : σ → ℕ → σ) (K : ℕ) (u_inp : σ) :
    (call op K u_inp 0).1 = [u_inp] ∧
    (call op K u_inp 0).1.length = 1 ∧
    (call op K u_inp 0).2 = u_inp ∧
    jump op K u_inp 0 = u_inp :=
  ⟨rfl, rfl, rfl, rfl⟩

end GraphNeuralPDESolver
